import Mathlib

/-!
# Verification of the Command-pattern text-editor CLI (`src/command.cpp`)

Shallow embedding of the program: the `Editor` receiver, the six concrete
command classes, the `CommandHistory` stack and the `Application` dispatch
loop.  Every editor operation except `SetPath` only prints a fixed
notification and leaves the editor state unchanged; we therefore model a
receiver-operation invocation by the inductive `EditorOp`, and a command's
`Execute`/`Undo` by the list of receiver operations it invokes plus the
induced state transition.  Undefined behaviour (reading `tokens[0]` of an
empty vector, `Pop` on an empty history) is modelled by `Option`, with
`none` for the undefined case.
-/

/-- The receiver state: `filepath` and the declared-but-unused
`filecontent`, both default-constructed to the empty string
(`Editor() {}` in the source). -/
structure Editor where
  filepath : String := ""
  filecontent : String := ""
deriving DecidableEq, Repr

/-- `Editor::GetPath`. -/
def Editor.GetPath (e : Editor) : String :=
  e.filepath

/-- `Editor::SetPath`. -/
def Editor.SetPath (e : Editor) (path : String) : Editor :=
  { e with filepath := path }

/-- A receiver-operation invocation: one constructor per `Editor` method a
command can call (`CloneRepository` is never invoked by any command and is
omitted from traces, but modelled below for completeness). -/
inductive EditorOp where
  | Save : EditorOp
  | SaveAs (newpath : String) : EditorOp
  | Open (filepath : String) : EditorOp
  | Print : EditorOp
  | Close : EditorOp
  | Revert : EditorOp
  | CreateNew : EditorOp
  | CloneRepository (repositoryurl : String) : EditorOp
  | SetPath (path : String) : EditorOp
deriving DecidableEq, Repr

/-- Effect of one receiver operation on the editor state.  In the source
every operation except `SetPath` is a placeholder whose body is a single
`cout` notification, so only `SetPath` changes the state. -/
def Editor.applyOp (e : Editor) (op : EditorOp) : Editor :=
  match op with
  | .SetPath path => e.SetPath path
  | _ => e

/-- The six concrete command classes, as a tagged variant carrying the
arguments each class stores (`editor` is the single shared receiver and is
not stored in the variant; it is passed to `Execute`/`Undo` explicitly). -/
inductive Command where
  | SaveCommand : Command
  | SaveAsCommand (newpath oldpath : String) : Command
  | OpenCommand (filepath : String) : Command
  | PrintCommand : Command
  | CloseCommand : Command
  | NewCommand : Command
deriving DecidableEq, Repr

/-- The `SaveAsCommand` constructor: captures
`oldpath = editor->GetPath()` at construction time. -/
def mkSaveAsCommand (editor : Editor) (newpath : String) : Command :=
  Command.SaveAsCommand newpath editor.GetPath

/-- Receiver operations invoked by `Execute()` of each command class.
None of the `Execute` bodies reads the editor state, so no editor
argument is needed. -/
def Command.ExecuteOps : Command → List EditorOp
  | .SaveCommand => [.Save]
  | .SaveAsCommand newpath _ => [.SaveAs newpath]
  | .OpenCommand filepath => [.Open filepath]
  | .PrintCommand => [.Print]
  | .CloseCommand => [.Close]
  | .NewCommand => [.CreateNew]

/-- Receiver operations invoked by `Undo()` of each command class.  The
editor argument is the receiver state at undo time:
`CloseCommand::Undo` reads `editor->GetPath()` when it runs. -/
def Command.UndoOps : Command → Editor → List EditorOp
  | .SaveCommand, _ => [.Revert]
  | .SaveAsCommand _ oldpath, _ => [.SetPath oldpath]
  | .OpenCommand _, _ => [.Close]
  | .PrintCommand, _ => []
  | .CloseCommand, e => [.Open e.GetPath]
  | .NewCommand, _ => [.Close]

/-- State transition of `Execute()`: apply its receiver operations. -/
def Command.Execute (c : Command) (e : Editor) : Editor :=
  c.ExecuteOps.foldl Editor.applyOp e

/-- State transition of `Undo()`: apply its receiver operations. -/
def Command.Undo (c : Command) (e : Editor) : Editor :=
  (c.UndoOps e).foldl Editor.applyOp e

/-- `CommandHistory`: a vector of commands. -/
structure CommandHistory where
  commands : List Command
deriving DecidableEq, Repr

/-- `CommandHistory::Push`: `push_back`. -/
def CommandHistory.Push (h : CommandHistory) (c : Command) : CommandHistory :=
  ⟨h.commands ++ [c]⟩

/-- `CommandHistory::Pop`: reads and removes `back()`.  The source has no
emptiness check; calling it on an empty vector is undefined behaviour,
modelled as `none`. -/
def CommandHistory.Pop (h : CommandHistory) : Option (Command × CommandHistory) :=
  match h.commands.getLast? with
  | none => none
  | some c => some (c, ⟨h.commands.dropLast⟩)

/-- Splitter of `Application::TokenizeInput`: `istringstream >> token`
extraction, i.e. maximal runs of non-whitespace characters, skipping
whitespace.  `acc` holds the characters of the token being read, in
reverse. -/
def tokenizeAux : List Char → List Char → List String
  | [], acc => if acc.isEmpty then [] else [String.mk acc.reverse]
  | ch :: rest, acc =>
    if ch.isWhitespace then
      if acc.isEmpty then tokenizeAux rest []
      else String.mk acc.reverse :: tokenizeAux rest []
    else tokenizeAux rest (ch :: acc)

/-- `Application::TokenizeInput`. -/
def TokenizeInput (input : String) : List String :=
  tokenizeAux input.data []

/-- `Application`: the command history and the single `Editor` receiver,
both default-constructed. -/
structure Application where
  commandhistory : CommandHistory := ⟨[]⟩
  editor : Editor := {}
deriving DecidableEq, Repr

/-- `Application::ParseInput`.  Returns `none` when the token vector is
empty: the source then reads `tokens[0]`, an out-of-bounds access
(undefined behaviour).  Otherwise returns the constructed command (or
`none` in place of `nullptr`) together with the diagnostic messages this
function prints. -/
def Application.ParseInput (app : Application) (input : String) :
    Option (Option Command × List String) :=
  match TokenizeInput input with
  | [] => none
  | commandname :: args =>
    if commandname = "save" then
      some (some .SaveCommand, [])
    else if commandname = "saveas" then
      match args with
      | [] => some (none, ["Пропущен аргумент: newpath"])
      | a :: _ => some (some (mkSaveAsCommand app.editor a), [])
    else if commandname = "open" then
      match args with
      | [] => some (none, ["Пропущен аргумент: filepath"])
      | a :: _ => some (some (.OpenCommand a), [])
    else if commandname = "print" then
      some (some .PrintCommand, [])
    else if commandname = "close" then
      some (some .CloseCommand, [])
    else if commandname = "new" then
      some (some .NewCommand, [])
    else
      some (none, [])

/-- The prompt `Application::Run` prints at the top of every iteration. -/
def promptMessage : String :=
  "Пожалуйста, введите команду. Например, open, save, saveas, close, print, new."

/-- The diagnostic `Application::Run` prints when `ParseInput` returns
`nullptr`. -/
def notRecognizedMessage : String :=
  "Программа не может распознать команду :("

/-- One iteration of the `while (true)` loop of `Application::Run` on one
input line: parse, and if a command was constructed, execute it and push
it onto the history.  Returns the new application state, the console
messages of the iteration in order, and the trace of receiver operations
invoked while executing; `none` when `ParseInput` hits the undefined
out-of-bounds read. -/
def Application.RunIteration (app : Application) (input : String) :
    Option (Application × List String × List EditorOp) :=
  match app.ParseInput input with
  | none => none
  | some (some c, msgs) =>
    some ({ commandhistory := app.commandhistory.Push c,
            editor := c.Execute app.editor },
          promptMessage :: msgs, c.ExecuteOps)
  | some (none, msgs) =>
    some (app, promptMessage :: (msgs ++ [notRecognizedMessage]), [])

/-- Several loop iterations in sequence, keeping only the application
state. -/
def Application.RunInputs (app : Application) : List String → Option Application
  | [] => some app
  | input :: rest =>
    match app.RunIteration input with
    | none => none
    | some (a, _, _) => a.RunInputs rest

/-! ## Helper lemmas -/

/-- Popping right after a push returns the pushed command and the previous
history. -/
theorem CommandHistory.Pop_Push (h : CommandHistory) (c : Command) :
    (h.Push c).Pop = some (c, h) := by
  simp [CommandHistory.Pop, CommandHistory.Push, List.getLast?_concat,
    List.dropLast_concat]

/-- On a non-empty command vector, `Pop` returns the last element and drops
it. -/
theorem CommandHistory.Pop_of_ne (l : List Command) (hne : l ≠ []) :
    CommandHistory.Pop ⟨l⟩ = some (l.getLast hne, ⟨l.dropLast⟩) := by
  have hl : l.dropLast ++ [l.getLast hne] = l := List.dropLast_append_getLast hne
  calc CommandHistory.Pop ⟨l⟩
      = CommandHistory.Pop ⟨l.dropLast ++ [l.getLast hne]⟩ := by rw [hl]
    _ = some (l.getLast hne, ⟨l.dropLast⟩) := CommandHistory.Pop_Push ⟨l.dropLast⟩ _

/-- Whenever the token vector is non-empty, `ParseInput` reaches no
out-of-bounds access: every branch of the dispatch returns a value. -/
theorem ParseInput_total (app : Application) (input : String)
    (name : String) (args : List String)
    (hT : TokenizeInput input = name :: args) :
    ∃ r, app.ParseInput input = some r := by
  simp only [Application.ParseInput, hT]
  split_ifs <;>
    first
      | exact ⟨_, rfl⟩
      | (cases args with
          | nil => exact ⟨_, rfl⟩
          | cons a rest => exact ⟨_, rfl⟩)

/-- When `ParseInput` constructs a command, the loop iteration executes it
once and pushes exactly it onto the history. -/
theorem RunIteration_of_parse (app : Application) (input : String) (c : Command)
    (hP : app.ParseInput input = some (some c, [])) :
    app.RunIteration input =
      some ({ commandhistory := ⟨app.commandhistory.commands ++ [c]⟩,
              editor := c.Execute app.editor },
            [promptMessage], c.ExecuteOps) := by
  simp [Application.RunIteration, hP, CommandHistory.Push]

/-! ## Claim theorems -/

/-- C1 (counterexample): running the scenario `open a.txt`, `saveas b.txt`,
`close` from a fresh application, the second pop of the history yields the
SaveAs command; but its captured old path is `""` — `Editor::Open` is a
placeholder that never writes `filepath`, so undoing it sets the editor's
path to `""`, not to `"a.txt"` as the claim states. -/
theorem C1_counterexample :
    Application.RunInputs {} ["open a.txt", "saveas b.txt", "close"] =
      some { commandhistory :=
               ⟨[.OpenCommand "a.txt", .SaveAsCommand "b.txt" "", .CloseCommand]⟩,
             editor := {} } ∧
    CommandHistory.Pop ⟨[.OpenCommand "a.txt", .SaveAsCommand "b.txt" "", .CloseCommand]⟩ =
      some (.CloseCommand, ⟨[.OpenCommand "a.txt", .SaveAsCommand "b.txt" ""]⟩) ∧
    CommandHistory.Pop ⟨[.OpenCommand "a.txt", .SaveAsCommand "b.txt" ""]⟩ =
      some (.SaveAsCommand "b.txt" "", ⟨[.OpenCommand "a.txt"]⟩) ∧
    ((Command.SaveAsCommand "b.txt" "").Undo {}).filepath = "" ∧
    ¬ ((Command.SaveAsCommand "b.txt" "").Undo {}).filepath = "a.txt" := by
  decide

/-- C1 (amended): for the input sequence `open a.txt`, `saveas b.txt`,
`close`, the dispatcher executes and pushes exactly three commands in that
order, and popping the history yields: Close-undo reopening the receiver's
current path (here `""`), then SaveAs-undo restoring the editor's path to
`""` — the path captured at the SaveAs construction, which is still the
initial empty path because `Editor::Open` never modifies `filepath` — then
Open-undo closing. -/
theorem C1_scenario :
    Application.RunIteration {} "open a.txt" =
      some ({ commandhistory := ⟨[.OpenCommand "a.txt"]⟩, editor := {} },
            [promptMessage], [.Open "a.txt"]) ∧
    Application.RunIteration
        { commandhistory := ⟨[.OpenCommand "a.txt"]⟩, editor := {} }
        "saveas b.txt" =
      some ({ commandhistory := ⟨[.OpenCommand "a.txt", .SaveAsCommand "b.txt" ""]⟩,
              editor := {} },
            [promptMessage], [.SaveAs "b.txt"]) ∧
    Application.RunIteration
        { commandhistory := ⟨[.OpenCommand "a.txt", .SaveAsCommand "b.txt" ""]⟩,
          editor := {} }
        "close" =
      some ({ commandhistory :=
                ⟨[.OpenCommand "a.txt", .SaveAsCommand "b.txt" "", .CloseCommand]⟩,
              editor := {} },
            [promptMessage], [.Close]) ∧
    CommandHistory.Pop ⟨[.OpenCommand "a.txt", .SaveAsCommand "b.txt" "", .CloseCommand]⟩ =
      some (.CloseCommand, ⟨[.OpenCommand "a.txt", .SaveAsCommand "b.txt" ""]⟩) ∧
    Command.CloseCommand.UndoOps {} = [.Open (Editor.GetPath {})] ∧
    Editor.GetPath {} = "" ∧
    CommandHistory.Pop ⟨[.OpenCommand "a.txt", .SaveAsCommand "b.txt" ""]⟩ =
      some (.SaveAsCommand "b.txt" "", ⟨[.OpenCommand "a.txt"]⟩) ∧
    ((Command.SaveAsCommand "b.txt" "").Undo {}).filepath = "" ∧
    CommandHistory.Pop ⟨[.OpenCommand "a.txt"]⟩ =
      some (.OpenCommand "a.txt", ⟨[]⟩) ∧
    (Command.OpenCommand "a.txt").UndoOps {} = [.Close] := by
  decide

/-- C2: an empty or whitespace-only input line tokenizes to the empty
vector, and `ParseInput` is undefined (out-of-bounds read of `tokens[0]`,
modelled as `none`) exactly on the lines whose token vector is empty:
dispatch is well-defined only for lines containing at least one
whitespace-separated token. -/
theorem C2_empty_input_undefined :
    TokenizeInput "" = [] ∧ TokenizeInput "   " = [] ∧
    (∀ (app : Application) (input : String),
      app.ParseInput input = none ↔ TokenizeInput input = []) ∧
    Application.ParseInput {} "" = none ∧
    Application.ParseInput {} "   " = none := by
  refine ⟨by decide, by decide, ?_, by decide, by decide⟩
  intro app input
  constructor
  · intro h
    by_contra hne
    obtain ⟨name, args, hT⟩ : ∃ name args, TokenizeInput input = name :: args := by
      cases hE : TokenizeInput input with
      | nil => exact absurd hE hne
      | cons n a => exact ⟨n, a, rfl⟩
    obtain ⟨r, hr⟩ := ParseInput_total app input name args hT
    rw [hr] at h
    exact Option.noConfusion h
  · intro hT
    simp [Application.ParseInput, hT]

/-- C2 witness: the iff applied at the concrete whitespace-only line
`"  "`, whose tokenization is empty. -/
theorem C2_witness : Application.ParseInput {} "  " = none :=
  (C2_empty_input_undefined.2.2.1 {} "  ").mpr (by decide)

/-- C3: a SaveAs command captures the editor's path at construction time,
its `Execute` leaves the path unchanged, and its `Undo` restores exactly
the captured path whatever the editor state at undo time is (so however
many operations ran in between, and in whatever undo order). -/
theorem C3_saveAs_undo_restores_captured_path (editor : Editor)
    (newpath : String) (e2 : Editor) :
    ((mkSaveAsCommand editor newpath).Undo e2).filepath = editor.GetPath ∧
    ((mkSaveAsCommand editor newpath).Execute editor).filepath = editor.GetPath := by
  exact ⟨rfl, rfl⟩

/-- C4: the receiver operations invoked by each command class's `Execute`
and `Undo` are exactly those of the mapping table — Save→(Save, Revert),
SaveAs→(SaveAs newpath, SetPath oldpath), Open→(Open filepath, Close),
Print→(Print, nothing), Close→(Close, Open of the receiver's path read at
undo time), New→(CreateNew, Close). -/
theorem C4_command_receiver_mapping (e : Editor) :
    (Command.SaveCommand.ExecuteOps = [.Save] ∧
      Command.SaveCommand.UndoOps e = [.Revert]) ∧
    (∀ newpath oldpath : String,
      (Command.SaveAsCommand newpath oldpath).ExecuteOps = [.SaveAs newpath] ∧
      (Command.SaveAsCommand newpath oldpath).UndoOps e = [.SetPath oldpath]) ∧
    (∀ filepath : String,
      (Command.OpenCommand filepath).ExecuteOps = [.Open filepath] ∧
      (Command.OpenCommand filepath).UndoOps e = [.Close]) ∧
    (Command.PrintCommand.ExecuteOps = [.Print] ∧
      Command.PrintCommand.UndoOps e = []) ∧
    (Command.CloseCommand.ExecuteOps = [.Close] ∧
      Command.CloseCommand.UndoOps e = [.Open e.GetPath]) ∧
    (Command.NewCommand.ExecuteOps = [.CreateNew] ∧
      Command.NewCommand.UndoOps e = [.Close]) :=
  ⟨⟨rfl, rfl⟩, fun _ _ => ⟨rfl, rfl⟩, fun _ => ⟨rfl, rfl⟩, ⟨rfl, rfl⟩,
    ⟨rfl, rfl⟩, ⟨rfl, rfl⟩⟩

/-- C5: the history is last-in-first-out — after pushing `a`, `b`, `c` in
that order onto any history, three successive pops return `c`, then `b`,
then `a`, leaving the history as it was before the pushes. -/
theorem C5_history_lifo (h : CommandHistory) (a b c : Command) :
    (((h.Push a).Push b).Push c).Pop = some (c, (h.Push a).Push b) ∧
    ((h.Push a).Push b).Pop = some (b, h.Push a) ∧
    (h.Push a).Pop = some (a, h) :=
  ⟨CommandHistory.Pop_Push _ _, CommandHistory.Pop_Push _ _,
    CommandHistory.Pop_Push _ _⟩

/-- C6: for every input line whose first token is one of the six
recognized command names, with the required argument present for `saveas`
and `open`, the loop iteration constructs exactly one command, executes it
exactly once (the iteration's receiver-operation trace is exactly that
command's `Execute` trace), and pushes exactly that one entry onto the
history. -/
theorem C6_recognized_dispatch (app : Application)
    (input commandname : String) (args : List String)
    (hT : TokenizeInput input = commandname :: args)
    (hname : commandname ∈ ["save", "saveas", "open", "print", "close", "new"])
    (harg : commandname = "saveas" ∨ commandname = "open" → args ≠ []) :
    ∃ c : Command,
      app.ParseInput input = some (some c, []) ∧
      app.RunIteration input =
        some ({ commandhistory := ⟨app.commandhistory.commands ++ [c]⟩,
                editor := c.Execute app.editor },
              [promptMessage], c.ExecuteOps) := by
  simp only [List.mem_cons, List.mem_singleton, List.not_mem_nil, or_false] at hname
  rcases hname with h | h | h | h | h | h <;> subst h
  · have hP : app.ParseInput input = some (some .SaveCommand, []) := by
      simp [Application.ParseInput, hT]
    exact ⟨_, hP, RunIteration_of_parse app input _ hP⟩
  · have hargs : args ≠ [] := harg (Or.inl rfl)
    cases args with
    | nil => exact absurd rfl hargs
    | cons a rest =>
      have hP : app.ParseInput input =
          some (some (.SaveAsCommand a app.editor.GetPath), []) := by
        simp [Application.ParseInput, hT, mkSaveAsCommand]
      exact ⟨_, hP, RunIteration_of_parse app input _ hP⟩
  · have hargs : args ≠ [] := harg (Or.inr rfl)
    cases args with
    | nil => exact absurd rfl hargs
    | cons a rest =>
      have hP : app.ParseInput input = some (some (.OpenCommand a), []) := by
        simp [Application.ParseInput, hT]
      exact ⟨_, hP, RunIteration_of_parse app input _ hP⟩
  · have hP : app.ParseInput input = some (some .PrintCommand, []) := by
      simp [Application.ParseInput, hT]
    exact ⟨_, hP, RunIteration_of_parse app input _ hP⟩
  · have hP : app.ParseInput input = some (some .CloseCommand, []) := by
      simp [Application.ParseInput, hT]
    exact ⟨_, hP, RunIteration_of_parse app input _ hP⟩
  · have hP : app.ParseInput input = some (some .NewCommand, []) := by
      simp [Application.ParseInput, hT]
    exact ⟨_, hP, RunIteration_of_parse app input _ hP⟩

/-- C6 witness: the dispatch theorem applied to the fresh application and
the concrete line `open a.txt`. -/
theorem C6_witness :
    Application.RunIteration {} "open a.txt" =
      some ({ commandhistory := ⟨[.OpenCommand "a.txt"]⟩, editor := {} },
            [promptMessage], [.Open "a.txt"]) := by
  obtain ⟨c, hP, hR⟩ := C6_recognized_dispatch {} "open a.txt" "open" ["a.txt"]
    (by decide) (by decide) (fun _ => by decide)
  have hP2 : Application.ParseInput {} "open a.txt" =
      some (some (Command.OpenCommand "a.txt"), []) := by decide
  rw [hP2] at hP
  have hc : Command.OpenCommand "a.txt" = c := by
    have h1 := Option.some.inj hP
    exact Option.some.inj (congrArg Prod.fst h1)
  rw [← hc] at hR
  exact hR

/-- C7: for every input line whose first token is not one of the six
recognized command names, the iteration constructs no command (`nullptr`),
pushes nothing (the application state is unchanged), invokes no receiver
operation, and prints the "not recognized" diagnostic. -/
theorem C7_unrecognized_dispatch (app : Application)
    (input commandname : String) (args : List String)
    (hT : TokenizeInput input = commandname :: args)
    (hname : commandname ∉ ["save", "saveas", "open", "print", "close", "new"]) :
    app.ParseInput input = some (none, []) ∧
    app.RunIteration input =
      some (app, [promptMessage, notRecognizedMessage], []) := by
  simp only [List.mem_cons, List.mem_singleton, List.not_mem_nil, or_false,
    not_or] at hname
  obtain ⟨h1, h2, h3, h4, h5, h6⟩ := hname
  have hP : app.ParseInput input = some (none, []) := by
    simp [Application.ParseInput, hT, h1, h2, h3, h4, h5, h6]
  exact ⟨hP, by simp [Application.RunIteration, hP]⟩

/-- C7 witness: the unrecognized-dispatch theorem applied to the fresh
application and the concrete line `foo bar`. -/
theorem C7_witness :
    Application.ParseInput {} "foo bar" = some (none, []) ∧
    Application.RunIteration {} "foo bar" =
      some ({}, [promptMessage, notRecognizedMessage], []) :=
  C7_unrecognized_dispatch {} "foo bar" "foo" ["bar"] (by decide) (by decide)

/-- C8: the bare lines `saveas` and `open` each construct no command and
leave the application state unchanged, printing the missing-argument
diagnostic and then, like the unrecognized case, the "not recognized"
message — console output only, nothing pushed; and when an argument token
is present it is captured verbatim: the constructed command stores exactly
the second token, which excludes all surrounding whitespace and keeps
embedded punctuation. -/
theorem C8_missing_argument_and_verbatim_capture (app : Application) :
    app.RunIteration "saveas" =
      some (app, [promptMessage, "Пропущен аргумент: newpath",
                  notRecognizedMessage], []) ∧
    app.RunIteration "open" =
      some (app, [promptMessage, "Пропущен аргумент: filepath",
                  notRecognizedMessage], []) ∧
    (∀ (input a : String) (rest : List String),
      TokenizeInput input = "saveas" :: a :: rest →
      app.ParseInput input =
        some (some (.SaveAsCommand a app.editor.GetPath), [])) ∧
    (∀ (input a : String) (rest : List String),
      TokenizeInput input = "open" :: a :: rest →
      app.ParseInput input = some (some (.OpenCommand a), [])) ∧
    TokenizeInput " saveas  a,b.txt " = ["saveas", "a,b.txt"] := by
  refine ⟨rfl, rfl, ?_, ?_, by decide⟩
  · intro input a rest hT
    simp [Application.ParseInput, hT, mkSaveAsCommand]
  · intro input a rest hT
    simp [Application.ParseInput, hT]

/-- C8 witness: the theorem applied to the fresh application, with the
verbatim-capture part instantiated at the concrete line
`" saveas  a,b.txt "` — the captured argument is `a,b.txt`, with its comma
and without the surrounding whitespace. -/
theorem C8_witness :
    Application.RunIteration {} "saveas" =
      some ({}, [promptMessage, "Пропущен аргумент: newpath",
                 notRecognizedMessage], []) ∧
    Application.ParseInput {} " saveas  a,b.txt " =
      some (some (.SaveAsCommand "a,b.txt" ""), []) :=
  ⟨(C8_missing_argument_and_verbatim_capture {}).1,
    (C8_missing_argument_and_verbatim_capture {}).2.2.1 " saveas  a,b.txt "
      "a,b.txt" [] (by decide)⟩

/-- C9: `Pop` on a history holding at least one command removes and
returns the most recently pushed command (every non-empty history is a
push, and popping a push returns exactly the pushed command and the prior
history); on an empty history the source reads `back()` of an empty
vector with no guard, modelled as the undefined result `none`. -/
theorem C9_pop_unguarded :
    (∀ (h : CommandHistory) (c : Command), (h.Push c).Pop = some (c, h)) ∧
    (∀ h : CommandHistory, h.commands ≠ [] →
      ∃ (h0 : CommandHistory) (c : Command),
        h = h0.Push c ∧ h.Pop = some (c, h0)) ∧
    (∀ h : CommandHistory, h.commands = [] → h.Pop = none) := by
  refine ⟨CommandHistory.Pop_Push, ?_, ?_⟩
  · intro h hne
    cases h with
    | mk l =>
      refine ⟨⟨l.dropLast⟩, l.getLast hne, ?_, CommandHistory.Pop_of_ne l hne⟩
      simp [CommandHistory.Push, List.dropLast_append_getLast hne]
  · intro h he
    cases h with
    | mk l =>
      cases he
      rfl

/-- C9 witness: the theorem applied at a singleton push and at the empty
history. -/
theorem C9_witness :
    ((⟨[]⟩ : CommandHistory).Push .SaveCommand).Pop =
      some (.SaveCommand, ⟨[]⟩) ∧
    CommandHistory.Pop ⟨[]⟩ = none :=
  ⟨C9_pop_unguarded.1 ⟨[]⟩ .SaveCommand, C9_pop_unguarded.2.2 ⟨[]⟩ rfl⟩

/-- C10: executing any command leaves the editor's path unchanged — in
particular SaveAs's `Execute` does not set the path — and among all
command `Undo` methods only `SaveAsCommand::Undo` modifies the path (it is
exactly `SetPath oldpath`); every other command's undo preserves the
path. -/
theorem C10_only_saveAs_undo_writes_path (c : Command) (e : Editor) :
    (c.Execute e).filepath = e.filepath ∧
    (∀ newpath oldpath : String,
      (Command.SaveAsCommand newpath oldpath).Undo e = e.SetPath oldpath) ∧
    ((c.Undo e).filepath = e.filepath ∨
      ∃ newpath oldpath, c = .SaveAsCommand newpath oldpath ∧
        (c.Undo e).filepath = oldpath) := by
  refine ⟨?_, fun _ _ => rfl, ?_⟩
  · cases c <;> rfl
  · cases c with
    | SaveCommand => exact Or.inl rfl
    | SaveAsCommand newpath oldpath => exact Or.inr ⟨newpath, oldpath, rfl, rfl⟩
    | OpenCommand filepath => exact Or.inl rfl
    | PrintCommand => exact Or.inl rfl
    | CloseCommand => exact Or.inl rfl
    | NewCommand => exact Or.inl rfl
